import Mathlib

/-!
Verification of the Pokemon Registry Service (`API Lesson/main.py`).

The service keeps an in-memory dictionary `pokemon_db` mapping integer ids to
Pokemon records, together with a counter `next_id` starting at 1.  Four HTTP
handlers operate on this state: `list_pokemon`, `get_pokemon`,
`create_pokemon` and `delete_pokemon`.  We embed the Python dictionary as an
insertion-ordered association list with unique keys, the handlers as pure
functions on an explicit registry state, and the nondeterministic timestamp
`datetime.now().isoformat()` as an extra input string.
-/

set_option autoImplicit false

namespace Pokedex

/-- A stored Pokemon record, mirroring the dictionary built in
`create_pokemon` and the `PokemonResponse` model:
`{id, name, type, power_level, created_at}`. -/
structure PokemonRecord where
  id : Int
  name : String
  type : String
  power_level : Int
  created_at : String
deriving DecidableEq, Repr

/-- The request body of `POST /pokemon`, mirroring the `PokemonCreate`
Pydantic model: `name : str`, `type : str`,
`power_level : int = Field(..., ge=1, le=100)`.  The fields are already
typed; Pydantic's type checking is the typing of this structure. -/
structure PokemonCreate where
  name : String
  type : String
  power_level : Int
deriving DecidableEq, Repr

/-- Errors surfaced to the caller: `HTTPException(status_code, detail)`
raised by the handlers, and the 422 request-validation error FastAPI
produces when the Pydantic model rejects the body, carrying the list of
failing constraints. -/
inductive ApiError where
  | http (status_code : Int) (detail : String)
  | validation (errors : List String)
deriving DecidableEq, Repr

/-- Lookup in the dictionary (`pokemon_db[k]` / `k in pokemon_db`):
returns the value of the first entry whose key is `k`. -/
def dbLookup : List (Int × PokemonRecord) → Int → Option PokemonRecord
  | [], _ => none
  | (k', v) :: rest, k => if k' = k then some v else dbLookup rest k

/-- Dictionary assignment `pokemon_db[k] = v`: overwrite in place when the
key is present, append a fresh entry otherwise (CPython dicts preserve
insertion order). -/
def dbInsert (db : List (Int × PokemonRecord)) (k : Int) (v : PokemonRecord) :
    List (Int × PokemonRecord) :=
  match dbLookup db k with
  | some _ => db.map (fun kv => if kv.1 = k then (k, v) else kv)
  | none => db ++ [(k, v)]

/-- Dictionary deletion `del pokemon_db[k]`: drop the entry keyed `k`. -/
def dbDelete : List (Int × PokemonRecord) → Int → List (Int × PokemonRecord)
  | [], _ => []
  | (k', v) :: rest, k => if k' = k then dbDelete rest k else (k', v) :: dbDelete rest k

/-- The module-level mutable state: the dictionary `pokemon_db` and the
counter `next_id`. -/
structure RegistryState where
  pokemon_db : List (Int × PokemonRecord)
  next_id : Int
deriving DecidableEq, Repr

/-- The state at process start: `pokemon_db = {}`, `next_id = 1`. -/
def initState : RegistryState := ⟨[], 1⟩

/-- `GET /pokemon` — `list_pokemon`: `return list(pokemon_db.values())`. -/
def list_pokemon (s : RegistryState) : List PokemonRecord × RegistryState :=
  (s.pokemon_db.map Prod.snd, s)

/-- The 404 detail string `f"Pokemon with ID {pokemon_id} not found"`. -/
def notFoundDetail (pokemon_id : Int) : String :=
  "Pokemon with ID " ++ toString pokemon_id ++ " not found"

/-- `GET /pokemon/{pokemon_id}` — `get_pokemon`: 404 when the id is not in
`pokemon_db`, otherwise `return pokemon_db[pokemon_id]`. -/
def get_pokemon (s : RegistryState) (pokemon_id : Int) :
    Except ApiError PokemonRecord × RegistryState :=
  match dbLookup s.pokemon_db pokemon_id with
  | none => (Except.error (ApiError.http 404 (notFoundDetail pokemon_id)), s)
  | some r => (Except.ok r, s)

/-- The request validation FastAPI/Pydantic runs on a `PokemonCreate` body
before the handler is entered.  The model constrains only
`power_level` (`ge=1`, `le=100`); `name` and `type` are bare `str` fields
with no further constraint.  Returns the list of failing constraints. -/
def validateCreate (p : PokemonCreate) : List String :=
  (if p.power_level < 1 then
    ["power_level: ensure this value is greater than or equal to 1"] else []) ++
  (if p.power_level > 100 then
    ["power_level: ensure this value is less than or equal to 100"] else [])

/-- `POST /pokemon` — `create_pokemon`: when validation passes, build
`new_pokemon` with id `next_id` and the request's fields plus the current
timestamp, store it under `next_id`, increment `next_id`, and return it
(201).  When validation fails FastAPI returns 422 with the failing
constraints and the handler never runs. -/
def create_pokemon (s : RegistryState) (pokemon : PokemonCreate) (now : String) :
    Except ApiError PokemonRecord × RegistryState :=
  if validateCreate pokemon = [] then
    let new_pokemon : PokemonRecord :=
      ⟨s.next_id, pokemon.name, pokemon.type, pokemon.power_level, now⟩
    (Except.ok new_pokemon,
      { pokemon_db := dbInsert s.pokemon_db s.next_id new_pokemon,
        next_id := s.next_id + 1 })
  else
    (Except.error (ApiError.validation (validateCreate pokemon)), s)

/-- `DELETE /pokemon/{pokemon_id}` — `delete_pokemon`: 404 when the id is
not in `pokemon_db`, otherwise `del pokemon_db[pokemon_id]` and return no
content (204). -/
def delete_pokemon (s : RegistryState) (pokemon_id : Int) :
    Except ApiError Unit × RegistryState :=
  match dbLookup s.pokemon_db pokemon_id with
  | none => (Except.error (ApiError.http 404 (notFoundDetail pokemon_id)), s)
  | some _ => (Except.ok (), { s with pokemon_db := dbDelete s.pokemon_db pokemon_id })

/-- A request to the service, used to describe sequences of operations. -/
inductive Op where
  | listAll
  | get (pokemon_id : Int)
  | create (pokemon : PokemonCreate) (now : String)
  | delete (pokemon_id : Int)
deriving DecidableEq, Repr

/-- The state reached after serving one request. -/
def step (s : RegistryState) : Op → RegistryState
  | Op.listAll => (list_pokemon s).2
  | Op.get k => (get_pokemon s k).2
  | Op.create p now => (create_pokemon s p now).2
  | Op.delete k => (delete_pokemon s k).2

/-- The state reached after serving a sequence of requests. -/
def run (s : RegistryState) (ops : List Op) : RegistryState := ops.foldl step s

/-- States reachable from process start by some sequence of requests. -/
def Reachable (s : RegistryState) : Prop := ∃ ops, run initState ops = s

/-- Whether a request is a `create` that passes validation. -/
def isValidCreate : Op → Bool
  | Op.create p _ => validateCreate p = []
  | _ => false

/-- Number of successful creates in a request sequence. -/
def numCreates (ops : List Op) : Nat := ops.countP isValidCreate

/-- The ids handed out by the successful creates of a request sequence,
in order. -/
def assignedIds : RegistryState → List Op → List Int
  | _, [] => []
  | s, op :: rest =>
    (if isValidCreate op then [s.next_id] else []) ++ assignedIds (step s op) rest

/-- `idsFrom b n = [b, b+1, ..., b+n-1]`. -/
def idsFrom (b : Int) : Nat → List Int
  | 0 => []
  | n + 1 => b :: idsFrom (b + 1) n

/-- The registry invariant: every stored key is below the counter, and the
stored keys are pairwise distinct. -/
def StateInv (s : RegistryState) : Prop :=
  (∀ kv ∈ s.pokemon_db, kv.1 < s.next_id) ∧ (s.pokemon_db.map Prod.fst).Nodup

/-- Running a list of creates in order, collecting the returned records. -/
def runCreates : RegistryState → List (PokemonCreate × String) →
    List PokemonRecord × RegistryState
  | s, [] => ([], s)
  | s, (p, now) :: rest =>
    match create_pokemon s p now with
    | (Except.ok r, s') =>
      let out := runCreates s' rest
      (r :: out.1, out.2)
    | (Except.error _, s') => runCreates s' rest

/-! ### Dictionary lemmas -/

theorem dbLookup_eq_none_of_lt {db : List (Int × PokemonRecord)} {k : Int}
    (h : ∀ kv ∈ db, kv.1 < k) : dbLookup db k = none := by
  induction db with
  | nil => rfl
  | cons kv rest ih =>
    obtain ⟨k', v⟩ := kv
    have hk : k' < k := h (k', v) (List.mem_cons_self _ _)
    simp only [dbLookup, if_neg (by omega : ¬ k' = k)]
    exact ih fun kv hkv => h kv (List.mem_cons_of_mem _ hkv)

theorem dbLookup_append_self {db : List (Int × PokemonRecord)} {k : Int}
    (v : PokemonRecord) (h : dbLookup db k = none) :
    dbLookup (db ++ [(k, v)]) k = some v := by
  induction db with
  | nil => simp [dbLookup]
  | cons kv rest ih =>
    obtain ⟨k', v'⟩ := kv
    by_cases hk : k' = k
    · simp [dbLookup, hk] at h
    · simp only [dbLookup, if_neg hk] at h ⊢
      exact ih h

theorem dbLookup_append_of_some {db : List (Int × PokemonRecord)} {j : Int}
    {w : PokemonRecord} (l : List (Int × PokemonRecord))
    (h : dbLookup db j = some w) : dbLookup (db ++ l) j = some w := by
  induction db with
  | nil => simp [dbLookup] at h
  | cons kv rest ih =>
    obtain ⟨k', v'⟩ := kv
    by_cases hk : k' = j
    · simp only [dbLookup, if_pos hk] at h ⊢
      exact h
    · simp only [dbLookup, if_neg hk] at h ⊢
      exact ih h

theorem dbLookup_append_single_ne {db : List (Int × PokemonRecord)} {j k : Int}
    (v : PokemonRecord) (hjk : j ≠ k) (h : dbLookup db j = none) :
    dbLookup (db ++ [(k, v)]) j = none := by
  induction db with
  | nil => simp [dbLookup, Ne.symm hjk]
  | cons kv rest ih =>
    obtain ⟨k', v'⟩ := kv
    by_cases hk : k' = j
    · simp [dbLookup, hk] at h
    · simp only [dbLookup, if_neg hk] at h ⊢
      exact ih h

theorem dbInsert_of_none {db : List (Int × PokemonRecord)} {k : Int}
    (v : PokemonRecord) (h : dbLookup db k = none) :
    dbInsert db k v = db ++ [(k, v)] := by
  simp [dbInsert, h]

theorem dbLookup_overwrite {db : List (Int × PokemonRecord)} {k : Int}
    {w : PokemonRecord} (v : PokemonRecord) (h : dbLookup db k = some w) :
    dbLookup (db.map (fun kv => if kv.1 = k then (k, v) else kv)) k = some v := by
  induction db with
  | nil => simp [dbLookup] at h
  | cons kv rest ih =>
    obtain ⟨k', v'⟩ := kv
    by_cases hk : k' = k
    · simp only [List.map_cons]
      rw [if_pos (by simpa using hk)]
      simp [dbLookup]
    · simp only [dbLookup, if_neg hk] at h
      simp only [List.map_cons]
      rw [if_neg (by simpa using hk)]
      simp only [dbLookup, if_neg hk]
      exact ih h

theorem dbLookup_dbInsert_self (db : List (Int × PokemonRecord)) (k : Int)
    (v : PokemonRecord) : dbLookup (dbInsert db k v) k = some v := by
  unfold dbInsert
  cases h : dbLookup db k with
  | none => exact dbLookup_append_self v h
  | some w => exact dbLookup_overwrite v h

theorem dbLookup_dbDelete (db : List (Int × PokemonRecord)) (k j : Int) :
    dbLookup (dbDelete db k) j = if j = k then none else dbLookup db j := by
  induction db with
  | nil => simp [dbDelete, dbLookup]
  | cons kv rest ih =>
    obtain ⟨k', v⟩ := kv
    by_cases hk : k' = k
    · subst hk
      rw [show dbDelete ((k', v) :: rest) k' = dbDelete rest k' from by
        simp [dbDelete]]
      by_cases hj : j = k'
      · rw [ih]
        simp [hj]
      · simp [ih, hj, dbLookup, Ne.symm hj]
    · rw [show dbDelete ((k', v) :: rest) k = (k', v) :: dbDelete rest k from by
        simp [dbDelete, hk]]
      by_cases hj : k' = j
      · subst hj
        simp [dbLookup, ih, hk]
      · simp only [dbLookup, if_neg hj]
        exact ih

theorem dbDelete_sublist (db : List (Int × PokemonRecord)) (k : Int) :
    List.Sublist (dbDelete db k) db := by
  induction db with
  | nil => simp [dbDelete]
  | cons kv rest ih =>
    obtain ⟨k', v⟩ := kv
    by_cases hk : k' = k
    · rw [show dbDelete ((k', v) :: rest) k = dbDelete rest k from by
        simp [dbDelete, hk]]
      exact List.Sublist.cons _ ih
    · rw [show dbDelete ((k', v) :: rest) k = (k', v) :: dbDelete rest k from by
        simp [dbDelete, hk]]
      exact List.Sublist.cons₂ _ ih

theorem dbLookup_mem {db : List (Int × PokemonRecord)} {k : Int}
    {v : PokemonRecord} (h : dbLookup db k = some v) : (k, v) ∈ db := by
  induction db with
  | nil => simp [dbLookup] at h
  | cons kv rest ih =>
    obtain ⟨k', v'⟩ := kv
    by_cases hk : k' = k
    · simp only [dbLookup, if_pos hk] at h
      subst hk
      cases h
      exact List.mem_cons_self _ _
    · simp only [dbLookup, if_neg hk] at h
      exact List.mem_cons_of_mem _ (ih h)

theorem mem_dbLookup {db : List (Int × PokemonRecord)} {k : Int}
    {v : PokemonRecord} (hn : (db.map Prod.fst).Nodup) (h : (k, v) ∈ db) :
    dbLookup db k = some v := by
  induction db with
  | nil => simp at h
  | cons kv rest ih =>
    obtain ⟨k', v'⟩ := kv
    simp only [List.map_cons, List.nodup_cons] at hn
    rcases List.mem_cons.mp h with heq | hmem
    · cases heq
      simp [dbLookup]
    · have hk : k' ≠ k := by
        intro hh
        subst hh
        exact hn.1 (List.mem_map.mpr ⟨(k', v), hmem, rfl⟩)
      simp only [dbLookup, if_neg hk]
      exact ih hn.2 hmem

theorem mem_values_iff_dbLookup {db : List (Int × PokemonRecord)}
    (hn : (db.map Prod.fst).Nodup) (r : PokemonRecord) :
    r ∈ db.map Prod.snd ↔ ∃ k, dbLookup db k = some r := by
  constructor
  · intro h
    obtain ⟨⟨k, v⟩, hmem, hv⟩ := List.mem_map.mp h
    cases hv
    exact ⟨k, mem_dbLookup hn hmem⟩
  · rintro ⟨k, hk⟩
    exact List.mem_map.mpr ⟨(k, r), dbLookup_mem hk, rfl⟩

/-! ### Handler unfolding lemmas -/

theorem get_pokemon_state (s : RegistryState) (k : Int) :
    (get_pokemon s k).2 = s := by
  unfold get_pokemon
  cases dbLookup s.pokemon_db k <;> rfl

theorem get_pokemon_of_some {s : RegistryState} {k : Int} {r : PokemonRecord}
    (h : dbLookup s.pokemon_db k = some r) :
    get_pokemon s k = (Except.ok r, s) := by
  unfold get_pokemon
  rw [h]

theorem get_pokemon_of_none {s : RegistryState} {k : Int}
    (h : dbLookup s.pokemon_db k = none) :
    get_pokemon s k = (Except.error (ApiError.http 404 (notFoundDetail k)), s) := by
  unfold get_pokemon
  rw [h]

theorem create_pokemon_of_valid {p : PokemonCreate} (s : RegistryState)
    (now : String) (hv : validateCreate p = []) :
    create_pokemon s p now =
      (Except.ok ⟨s.next_id, p.name, p.type, p.power_level, now⟩,
        ⟨dbInsert s.pokemon_db s.next_id
          ⟨s.next_id, p.name, p.type, p.power_level, now⟩, s.next_id + 1⟩) := by
  simp [create_pokemon, hv]

theorem create_pokemon_of_invalid {p : PokemonCreate} (s : RegistryState)
    (now : String) (hv : validateCreate p ≠ []) :
    create_pokemon s p now =
      (Except.error (ApiError.validation (validateCreate p)), s) := by
  simp [create_pokemon, hv]

theorem delete_pokemon_of_none {s : RegistryState} {k : Int}
    (h : dbLookup s.pokemon_db k = none) :
    delete_pokemon s k = (Except.error (ApiError.http 404 (notFoundDetail k)), s) := by
  unfold delete_pokemon
  rw [h]

theorem delete_pokemon_of_some {s : RegistryState} {k : Int} {r : PokemonRecord}
    (h : dbLookup s.pokemon_db k = some r) :
    delete_pokemon s k =
      (Except.ok (), { s with pokemon_db := dbDelete s.pokemon_db k }) := by
  unfold delete_pokemon
  rw [h]

/-! ### The registry invariant and reachability -/

theorem stateInv_initState : StateInv initState := by
  constructor
  · intro kv hkv
    simp [initState] at hkv
  · simp [initState]

theorem stateInv_mk_append {db : List (Int × PokemonRecord)} {n : Int}
    (h1 : ∀ kv ∈ db, kv.1 < n) (h2 : (db.map Prod.fst).Nodup)
    (r : PokemonRecord) : StateInv ⟨db ++ [(n, r)], n + 1⟩ := by
  constructor
  · intro kv hkv
    show kv.1 < n + 1
    rcases List.mem_append.mp hkv with hmem | hmem
    · have := h1 kv hmem
      omega
    · simp at hmem
      subst hmem
      omega
  · show ((db ++ [(n, r)]).map Prod.fst).Nodup
    rw [List.map_append, List.nodup_append]
    refine ⟨h2, by simp, ?_⟩
    intro a ha hb
    simp at hb
    subst hb
    obtain ⟨kv, hkv, hfst⟩ := List.mem_map.mp ha
    have := h1 kv hkv
    omega

theorem stateInv_create {s : RegistryState} (p : PokemonCreate) (now : String)
    (h : StateInv s) : StateInv (create_pokemon s p now).2 := by
  by_cases hv : validateCreate p = []
  · rw [create_pokemon_of_valid s now hv]
    have hnone : dbLookup s.pokemon_db s.next_id = none :=
      dbLookup_eq_none_of_lt h.1
    show StateInv ⟨dbInsert s.pokemon_db s.next_id _, s.next_id + 1⟩
    rw [dbInsert_of_none _ hnone]
    exact stateInv_mk_append h.1 h.2 _
  · rw [create_pokemon_of_invalid s now hv]
    exact h

theorem stateInv_delete {s : RegistryState} (k : Int)
    (h : StateInv s) : StateInv (delete_pokemon s k).2 := by
  cases hd : dbLookup s.pokemon_db k with
  | none =>
    rw [delete_pokemon_of_none hd]
    exact h
  | some r =>
    rw [delete_pokemon_of_some hd]
    constructor
    · intro kv hkv
      exact h.1 kv ((dbDelete_sublist s.pokemon_db k).mem hkv)
    · exact h.2.sublist ((dbDelete_sublist s.pokemon_db k).map Prod.fst)

theorem stateInv_step {s : RegistryState} (op : Op)
    (h : StateInv s) : StateInv (step s op) := by
  cases op with
  | listAll => exact h
  | get k =>
    show StateInv (get_pokemon s k).2
    rw [get_pokemon_state]
    exact h
  | create p now => exact stateInv_create p now h
  | delete k => exact stateInv_delete k h

theorem stateInv_run (ops : List Op) :
    ∀ s : RegistryState, StateInv s → StateInv (run s ops) := by
  induction ops with
  | nil => exact fun s h => h
  | cons op rest ih =>
    intro s h
    exact ih (step s op) (stateInv_step op h)

theorem reachable_stateInv {s : RegistryState} (h : Reachable s) : StateInv s := by
  obtain ⟨ops, rfl⟩ := h
  exact stateInv_run ops initState stateInv_initState

/-! ### Sequential id assignment -/

theorem mem_idsFrom (n : Nat) :
    ∀ b k : Int, k ∈ idsFrom b n ↔ b ≤ k ∧ k < b + n := by
  induction n with
  | zero =>
    intro b k
    simp [idsFrom]
  | succ m ih =>
    intro b k
    simp only [idsFrom, List.mem_cons, ih (b + 1) k]
    constructor
    · rintro (rfl | ⟨h1, h2⟩) <;> constructor <;> omega
    · rintro ⟨h1, h2⟩
      by_cases hk : k = b
      · exact Or.inl hk
      · exact Or.inr ⟨by omega, by omega⟩

theorem idsFrom_nodup (n : Nat) : ∀ b : Int, (idsFrom b n).Nodup := by
  induction n with
  | zero =>
    intro b
    simp [idsFrom]
  | succ m ih =>
    intro b
    rw [idsFrom, List.nodup_cons]
    refine ⟨?_, ih (b + 1)⟩
    rw [mem_idsFrom]
    omega

theorem step_next_id (s : RegistryState) (op : Op) :
    (step s op).next_id = if isValidCreate op then s.next_id + 1 else s.next_id := by
  cases op with
  | listAll => rfl
  | get k =>
    show (get_pokemon s k).2.next_id = _
    rw [get_pokemon_state]
    rfl
  | create p now =>
    show (create_pokemon s p now).2.next_id = _
    by_cases hv : validateCreate p = []
    · rw [create_pokemon_of_valid s now hv]
      simp [isValidCreate, hv]
    · rw [create_pokemon_of_invalid s now hv]
      simp [isValidCreate, hv]
  | delete k =>
    show (delete_pokemon s k).2.next_id = _
    cases hd : dbLookup s.pokemon_db k with
    | none =>
      rw [delete_pokemon_of_none hd]
      rfl
    | some r =>
      rw [delete_pokemon_of_some hd]
      rfl

theorem assignedIds_eq (ops : List Op) :
    ∀ s : RegistryState,
      assignedIds s ops = idsFrom s.next_id (numCreates ops) ∧
      (run s ops).next_id = s.next_id + numCreates ops := by
  induction ops with
  | nil =>
    intro s
    simp [assignedIds, numCreates, run, idsFrom]
  | cons op rest ih =>
    intro s
    have hrun : run s (op :: rest) = run (step s op) rest := by
      simp [run]
    have hcount : numCreates (op :: rest) =
        numCreates rest + (if isValidCreate op then 1 else 0) := by
      simp only [numCreates, List.countP_cons]
    by_cases hv : isValidCreate op = true
    · have hnext : (step s op).next_id = s.next_id + 1 := by
        rw [step_next_id, if_pos hv]
      constructor
      · rw [show assignedIds s (op :: rest) =
            s.next_id :: assignedIds (step s op) rest from by
              simp [assignedIds, hv]]
        rw [(ih (step s op)).1, hnext, hcount, if_pos hv]
        rfl
      · rw [hrun, (ih (step s op)).2, hnext, hcount, if_pos hv]
        push_cast
        ring
    · have hnext : (step s op).next_id = s.next_id := by
        rw [step_next_id, if_neg hv]
      constructor
      · rw [show assignedIds s (op :: rest) = assignedIds (step s op) rest from by
          simp [assignedIds, hv]]
        rw [(ih (step s op)).1, hnext, hcount, if_neg hv]
        simp
      · rw [hrun, (ih (step s op)).2, hnext, hcount, if_neg hv]
        simp

/-! ### Batches of creates -/

theorem runCreates_spec (ps : List (PokemonCreate × String)) :
    ∀ s : RegistryState, StateInv s → (∀ q ∈ ps, validateCreate q.1 = []) →
      (runCreates s ps).1.map PokemonRecord.id = idsFrom s.next_id ps.length ∧
      (runCreates s ps).2.pokemon_db =
        s.pokemon_db ++ (runCreates s ps).1.map (fun r => (r.id, r)) ∧
      (runCreates s ps).2.next_id = s.next_id + ps.length ∧
      (runCreates s ps).1.length = ps.length := by
  induction ps with
  | nil =>
    intro s _ _
    simp [runCreates, idsFrom]
  | cons q rest ih =>
    intro s hinv hval
    obtain ⟨p, now⟩ := q
    have hv : validateCreate p = [] := hval (p, now) (List.mem_cons_self _ _)
    have hnone : dbLookup s.pokemon_db s.next_id = none :=
      dbLookup_eq_none_of_lt hinv.1
    have hc := create_pokemon_of_valid (p := p) s now hv
    rw [dbInsert_of_none _ hnone] at hc
    set r : PokemonRecord := ⟨s.next_id, p.name, p.type, p.power_level, now⟩ with hr
    have hstep : runCreates s ((p, now) :: rest) =
        (r :: (runCreates ⟨s.pokemon_db ++ [(s.next_id, r)], s.next_id + 1⟩ rest).1,
          (runCreates ⟨s.pokemon_db ++ [(s.next_id, r)], s.next_id + 1⟩ rest).2) := by
      rw [runCreates, hc]
    have hinv' : StateInv ⟨s.pokemon_db ++ [(s.next_id, r)], s.next_id + 1⟩ :=
      stateInv_mk_append hinv.1 hinv.2 r
    have hval' : ∀ q ∈ rest, validateCreate q.1 = [] :=
      fun q hq => hval q (List.mem_cons_of_mem _ hq)
    obtain ⟨ih1, ih2, ih3, ih4⟩ := ih ⟨s.pokemon_db ++ [(s.next_id, r)], s.next_id + 1⟩ hinv' hval'
    refine ⟨?_, ?_, ?_, ?_⟩
    · rw [hstep]
      simp only [List.map_cons, List.length_cons]
      rw [ih1]
      rfl
    · rw [hstep]
      simp only [List.map_cons]
      rw [ih2]
      simp [hr]
    · rw [hstep]
      simp only [List.length_cons]
      rw [ih3]
      push_cast
      ring
    · rw [hstep]
      simp only [List.length_cons]
      rw [ih4]

/-! ### Validation characterisation -/

theorem validateCreate_eq_nil_iff (p : PokemonCreate) :
    validateCreate p = [] ↔ 1 ≤ p.power_level ∧ p.power_level ≤ 100 := by
  unfold validateCreate
  constructor
  · intro h
    by_cases h1 : p.power_level < 1
    · simp [h1] at h
    · by_cases h2 : p.power_level > 100
      · simp [h1, h2] at h
      · omega
  · intro h
    have h1 : ¬ p.power_level < 1 := by omega
    have h2 : ¬ p.power_level > 100 := by omega
    simp [h1, h2]

/-! ### Sample data for witnesses -/

/-- A sample stored record. -/
def pikachuRecord : PokemonRecord :=
  ⟨1, "Pikachu", "Electric", 85, "2025-01-01T00:00:00"⟩

/-- A second sample stored record. -/
def bulbasaurRecord : PokemonRecord :=
  ⟨2, "Bulbasaur", "Grass", 60, "2025-01-01T00:00:01"⟩

/-- A registry holding one record. -/
def oneRecordState : RegistryState := ⟨[(1, pikachuRecord)], 2⟩

/-- A registry holding two records. -/
def twoRecordState : RegistryState :=
  ⟨[(1, pikachuRecord), (2, bulbasaurRecord)], 3⟩

/-! ### The claims -/

/-- C1, counterexample: a Create request whose `name` and `type` are both the
empty string is accepted — it returns 201 with the stored record, and the
record is stored under id 1 — contradicting the claim that such requests
fail with a `ValidationError` and store nothing. -/
theorem C1_empty_name_type_accepted :
    (create_pokemon initState ⟨"", "", 50⟩ "2025-01-01T00:00:00").1 =
      Except.ok ⟨1, "", "", 50, "2025-01-01T00:00:00"⟩ ∧
    dbLookup (create_pokemon initState ⟨"", "", 50⟩ "2025-01-01T00:00:00").2.pokemon_db 1 =
      some ⟨1, "", "", 50, "2025-01-01T00:00:00"⟩ :=
  ⟨rfl, rfl⟩

/-- C1, amended: request validation never inspects `name` or `type` (any
strings, empty included, are accepted); a Create request is accepted exactly
when `power_level` lies in [1, 100], and a rejected request fails with a
`ValidationError` listing the failing constraints and leaves the registry
unchanged. -/
theorem C1_validation_ignores_name_and_type (s : RegistryState)
    (p : PokemonCreate) (now : String) :
    ((∃ r, (create_pokemon s p now).1 = Except.ok r) ↔
      1 ≤ p.power_level ∧ p.power_level ≤ 100) ∧
    (¬(1 ≤ p.power_level ∧ p.power_level ≤ 100) →
      (create_pokemon s p now).1 =
        Except.error (ApiError.validation (validateCreate p)) ∧
      validateCreate p ≠ [] ∧
      (create_pokemon s p now).2 = s) := by
  constructor
  · constructor
    · rintro ⟨r, hr⟩
      by_cases hv : validateCreate p = []
      · exact (validateCreate_eq_nil_iff p).mp hv
      · rw [create_pokemon_of_invalid s now hv] at hr
        cases hr
    · intro hpl
      have hv := (validateCreate_eq_nil_iff p).mpr hpl
      exact ⟨_, by rw [create_pokemon_of_valid s now hv]⟩
  · intro hpl
    have hv : validateCreate p ≠ [] :=
      fun h => hpl ((validateCreate_eq_nil_iff p).mp h)
    rw [create_pokemon_of_invalid s now hv]
    exact ⟨rfl, hv, rfl⟩

/-- Witness for C1 (amended) at a concrete out-of-range request. -/
theorem C1_validation_ignores_name_and_type_witness :
    (create_pokemon initState ⟨"Pikachu", "Electric", 0⟩ "T").1 =
      Except.error (ApiError.validation (validateCreate ⟨"Pikachu", "Electric", 0⟩)) :=
  ((C1_validation_ignores_name_and_type initState ⟨"Pikachu", "Electric", 0⟩ "T").2
    (by decide)).1

/-- C2: Create with `power_level = 0` or `101` fails with a
`ValidationError`, Create with `power_level = 1` or `100` succeeds for any
name and type, and in general a create is accepted exactly when
`power_level` lies in the inclusive interval [1, 100]. -/
theorem C2_power_level_boundaries (name ty now : String) (s : RegistryState) :
    ((create_pokemon s ⟨name, ty, 0⟩ now).1 =
        Except.error (ApiError.validation (validateCreate ⟨name, ty, 0⟩)) ∧
      validateCreate ⟨name, ty, 0⟩ ≠ []) ∧
    ((create_pokemon s ⟨name, ty, 101⟩ now).1 =
        Except.error (ApiError.validation (validateCreate ⟨name, ty, 101⟩)) ∧
      validateCreate ⟨name, ty, 101⟩ ≠ []) ∧
    ((create_pokemon s ⟨name, ty, 1⟩ now).1 =
      Except.ok ⟨s.next_id, name, ty, 1, now⟩) ∧
    ((create_pokemon s ⟨name, ty, 100⟩ now).1 =
      Except.ok ⟨s.next_id, name, ty, 100, now⟩) ∧
    (∀ pl : Int,
      (∃ r, (create_pokemon s ⟨name, ty, pl⟩ now).1 = Except.ok r) ↔
        1 ≤ pl ∧ pl ≤ 100) := by
  have h0 : validateCreate (⟨name, ty, 0⟩ : PokemonCreate) ≠ [] := by
    intro h
    have := (validateCreate_eq_nil_iff _).mp h
    simp at this
  have h101 : validateCreate (⟨name, ty, 101⟩ : PokemonCreate) ≠ [] := by
    intro h
    have := (validateCreate_eq_nil_iff _).mp h
    simp at this
  have h1 : validateCreate (⟨name, ty, 1⟩ : PokemonCreate) = [] :=
    (validateCreate_eq_nil_iff _).mpr (by simp)
  have h100 : validateCreate (⟨name, ty, 100⟩ : PokemonCreate) = [] :=
    (validateCreate_eq_nil_iff _).mpr (by simp)
  refine ⟨⟨?_, h0⟩, ⟨?_, h101⟩, ?_, ?_, ?_⟩
  · rw [create_pokemon_of_invalid s now h0]
  · rw [create_pokemon_of_invalid s now h101]
  · rw [create_pokemon_of_valid s now h1]
  · rw [create_pokemon_of_valid s now h100]
  · intro pl
    constructor
    · rintro ⟨r, hr⟩
      by_cases hv : validateCreate (⟨name, ty, pl⟩ : PokemonCreate) = []
      · exact (validateCreate_eq_nil_iff _).mp hv
      · rw [create_pokemon_of_invalid s now hv] at hr
        cases hr
    · intro hpl
      have hv := (validateCreate_eq_nil_iff (⟨name, ty, pl⟩ : PokemonCreate)).mpr hpl
      exact ⟨_, by rw [create_pokemon_of_valid s now hv]⟩

/-- C3: Get returns the stored record unchanged when the id is present,
fails with a 404 `HTTPException` whose detail names the missing id when it
is absent, and fails exactly when the id is absent. -/
theorem C3_get_present_or_404 (s : RegistryState) (k : Int) :
    (∀ r, dbLookup s.pokemon_db k = some r → get_pokemon s k = (Except.ok r, s)) ∧
    (dbLookup s.pokemon_db k = none →
      get_pokemon s k = (Except.error (ApiError.http 404 (notFoundDetail k)), s)) ∧
    ((∃ e, (get_pokemon s k).1 = Except.error e) ↔ dbLookup s.pokemon_db k = none) := by
  refine ⟨fun r h => get_pokemon_of_some h, fun h => get_pokemon_of_none h, ?_⟩
  constructor
  · rintro ⟨e, he⟩
    cases hd : dbLookup s.pokemon_db k with
    | none => rfl
    | some r =>
      rw [get_pokemon_of_some hd] at he
      cases he
  · intro hd
    rw [get_pokemon_of_none hd]
    exact ⟨_, rfl⟩

/-- Witness for C3: in a one-record registry, Get finds the record under
id 1 and 404s on the absent id 7. -/
theorem C3_get_present_or_404_witness :
    get_pokemon oneRecordState 1 = (Except.ok pikachuRecord, oneRecordState) ∧
    get_pokemon oneRecordState 7 =
      (Except.error (ApiError.http 404 (notFoundDetail 7)), oneRecordState) :=
  ⟨(C3_get_present_or_404 oneRecordState 1).1 pikachuRecord rfl,
    (C3_get_present_or_404 oneRecordState 7).2.1 rfl⟩

/-- C4: from any reachable state, a valid Create returns the full record
carrying id `next_id` and stores it under that id; across the whole request
history the successful creates received the ids 1, 2, 3, … in order
(`idsFrom 1`), the counter equals 1 plus the number of successful creates,
the newly assigned id is strictly greater than every previously assigned id
(deleted ones included), and no id is ever assigned twice. -/
theorem C4_sequential_id_allocation (ops : List Op) (p : PokemonCreate)
    (now : String) (hp : validateCreate p = []) :
    (create_pokemon (run initState ops) p now).1 =
      Except.ok ⟨(run initState ops).next_id, p.name, p.type, p.power_level, now⟩ ∧
    dbLookup (create_pokemon (run initState ops) p now).2.pokemon_db
        (run initState ops).next_id =
      some ⟨(run initState ops).next_id, p.name, p.type, p.power_level, now⟩ ∧
    assignedIds initState ops = idsFrom 1 (numCreates ops) ∧
    (run initState ops).next_id = 1 + numCreates ops ∧
    (∀ k ∈ assignedIds initState ops, k < (run initState ops).next_id) ∧
    (assignedIds initState ops).Nodup := by
  obtain ⟨ha, hn⟩ := assignedIds_eq ops initState
  have hinit : initState.next_id = 1 := rfl
  rw [hinit] at ha hn
  refine ⟨?_, ?_, ha, hn, ?_, ?_⟩
  · rw [create_pokemon_of_valid _ now hp]
  · rw [create_pokemon_of_valid _ now hp]
    exact dbLookup_dbInsert_self _ _ _
  · intro k hk
    rw [ha, mem_idsFrom] at hk
    rw [hn]
    omega
  · rw [ha]
    exact idsFrom_nodup _ 1

/-- Witness for C4: after a successful create and a delete of its id, the
next valid create is accepted and returns the never-before-used id 2. -/
theorem C4_sequential_id_allocation_witness :
    (create_pokemon
        (run initState [Op.create ⟨"Pikachu", "Electric", 85⟩ "T", Op.delete 1])
        ⟨"Bulbasaur", "Grass", 60⟩ "U").1 =
      Except.ok
        ⟨(run initState [Op.create ⟨"Pikachu", "Electric", 85⟩ "T", Op.delete 1]).next_id,
          "Bulbasaur", "Grass", 60, "U"⟩ :=
  (C4_sequential_id_allocation
    [Op.create ⟨"Pikachu", "Electric", 85⟩ "T", Op.delete 1]
    ⟨"Bulbasaur", "Grass", 60⟩ "U" rfl).1

/-- C5: Delete on an absent id fails with a 404 `HTTPException` naming the
id and leaves the state unchanged; Delete on a present id succeeds with no
content and the id is no longer present afterwards; Delete fails exactly
when the id is absent. -/
theorem C5_delete_absent_404 (s : RegistryState) (k : Int) :
    (dbLookup s.pokemon_db k = none →
      delete_pokemon s k = (Except.error (ApiError.http 404 (notFoundDetail k)), s)) ∧
    (∀ r, dbLookup s.pokemon_db k = some r →
      (delete_pokemon s k).1 = Except.ok () ∧
      dbLookup (delete_pokemon s k).2.pokemon_db k = none) ∧
    ((∃ e, (delete_pokemon s k).1 = Except.error e) ↔
      dbLookup s.pokemon_db k = none) := by
  refine ⟨fun h => delete_pokemon_of_none h, ?_, ?_⟩
  · intro r h
    rw [delete_pokemon_of_some h]
    refine ⟨rfl, ?_⟩
    show dbLookup (dbDelete s.pokemon_db k) k = none
    rw [dbLookup_dbDelete]
    simp
  · constructor
    · rintro ⟨e, he⟩
      cases hd : dbLookup s.pokemon_db k with
      | none => rfl
      | some r =>
        rw [delete_pokemon_of_some hd] at he
        cases he
    · intro hd
      rw [delete_pokemon_of_none hd]
      exact ⟨_, rfl⟩

/-- Witness for C5: deleting the present id 1 succeeds and removes it;
deleting the absent id 7 yields the 404 error and leaves the state as is. -/
theorem C5_delete_absent_404_witness :
    ((delete_pokemon oneRecordState 1).1 = Except.ok () ∧
      dbLookup (delete_pokemon oneRecordState 1).2.pokemon_db 1 = none) ∧
    delete_pokemon oneRecordState 7 =
      (Except.error (ApiError.http 404 (notFoundDetail 7)), oneRecordState) :=
  ⟨(C5_delete_absent_404 oneRecordState 1).2.1 pikachuRecord rfl,
    (C5_delete_absent_404 oneRecordState 7).1 rfl⟩

/-- C6: List never mutates the registry, returns exactly the records
currently stored (a record appears in the returned sequence iff it is
stored under some id), and returns the empty sequence on the empty
registry. -/
theorem C6_list_returns_all_records (s : RegistryState) (hs : Reachable s) :
    (list_pokemon s).2 = s ∧
    (∀ r, r ∈ (list_pokemon s).1 ↔ ∃ k, dbLookup s.pokemon_db k = some r) ∧
    (list_pokemon initState).1 = [] :=
  ⟨rfl, fun r => mem_values_iff_dbLookup (reachable_stateInv hs).2 r, rfl⟩

/-- Witness for C6 at the initial (empty, reachable) registry. -/
theorem C6_list_returns_all_records_witness :
    (list_pokemon initState).2 = initState ∧ (list_pokemon initState).1 = [] :=
  ⟨(C6_list_returns_all_records initState ⟨[], rfl⟩).1,
    (C6_list_returns_all_records initState ⟨[], rfl⟩).2.2⟩

/-- C7: whenever Create succeeds with record `r`, Get on `r.id` in the
resulting state succeeds and returns exactly `r` (and changes nothing). -/
theorem C7_get_after_create (s : RegistryState) (p : PokemonCreate)
    (now : String) (r : PokemonRecord)
    (h : (create_pokemon s p now).1 = Except.ok r) :
    get_pokemon (create_pokemon s p now).2 r.id =
      (Except.ok r, (create_pokemon s p now).2) := by
  by_cases hv : validateCreate p = []
  · rw [create_pokemon_of_valid s now hv] at h ⊢
    cases h
    exact get_pokemon_of_some (dbLookup_dbInsert_self _ _ _)
  · rw [create_pokemon_of_invalid s now hv] at h
    cases h

/-- Witness for C7 at a concrete create on the empty registry. -/
theorem C7_get_after_create_witness :
    get_pokemon (create_pokemon initState ⟨"Pikachu", "Electric", 85⟩ "T").2
        (⟨1, "Pikachu", "Electric", 85, "T"⟩ : PokemonRecord).id =
      (Except.ok ⟨1, "Pikachu", "Electric", 85, "T"⟩,
        (create_pokemon initState ⟨"Pikachu", "Electric", 85⟩ "T").2) :=
  C7_get_after_create initState ⟨"Pikachu", "Electric", 85⟩ "T"
    ⟨1, "Pikachu", "Electric", 85, "T"⟩ rfl

/-- C8: running any sequence of N valid creates on the empty registry
produces N records with pairwise-distinct ids, and List afterwards returns
exactly those N records, in creation order. -/
theorem C8_n_creates_n_distinct_records (ps : List (PokemonCreate × String))
    (hv : ∀ q ∈ ps, validateCreate q.1 = []) :
    (runCreates initState ps).1.length = ps.length ∧
    ((runCreates initState ps).1.map PokemonRecord.id).Nodup ∧
    (list_pokemon (runCreates initState ps).2).1 = (runCreates initState ps).1 := by
  obtain ⟨h1, h2, _, h4⟩ := runCreates_spec ps initState stateInv_initState hv
  refine ⟨h4, ?_, ?_⟩
  · rw [h1]
    exact idsFrom_nodup _ _
  · show (runCreates initState ps).2.pokemon_db.map Prod.snd = _
    rw [h2]
    show (List.map Prod.snd (List.map (fun r => (r.id, r)) (runCreates initState ps).1)) = _
    rw [List.map_map]
    exact List.map_id _

/-- Witness for C8 with two concrete valid creates. -/
theorem C8_n_creates_n_distinct_records_witness :
    (runCreates initState
        [(⟨"Pikachu", "Electric", 85⟩, "T"), (⟨"Bulbasaur", "Grass", 60⟩, "U")]).1.length = 2 ∧
    ((runCreates initState
        [(⟨"Pikachu", "Electric", 85⟩, "T"), (⟨"Bulbasaur", "Grass", 60⟩, "U")]).1.map
      PokemonRecord.id).Nodup :=
  ⟨(C8_n_creates_n_distinct_records
      [(⟨"Pikachu", "Electric", 85⟩, "T"), (⟨"Bulbasaur", "Grass", 60⟩, "U")]
      (by decide)).1,
    (C8_n_creates_n_distinct_records
      [(⟨"Pikachu", "Electric", 85⟩, "T"), (⟨"Bulbasaur", "Grass", 60⟩, "U")]
      (by decide)).2.1⟩

/-- C9: in every reachable state every stored id is strictly below the
counter `next_id`; this invariant (with distinctness of stored keys) is
preserved by each of the four operations; and from a reachable state a
valid Create grows the store by exactly one record while every previously
stored record stays stored unchanged (no overwrite). -/
theorem C9_counter_dominates_store (s : RegistryState) (p : PokemonCreate)
    (now : String) :
    (∀ t : RegistryState, Reachable t → ∀ kv ∈ t.pokemon_db, kv.1 < t.next_id) ∧
    (∀ t : RegistryState, ∀ op : Op, StateInv t → StateInv (step t op)) ∧
    (Reachable s → validateCreate p = [] →
      (create_pokemon s p now).2.pokemon_db.length = s.pokemon_db.length + 1 ∧
      ∀ k v, dbLookup s.pokemon_db k = some v →
        dbLookup (create_pokemon s p now).2.pokemon_db k = some v) := by
  refine ⟨fun t ht => (reachable_stateInv ht).1,
    fun t op h => stateInv_step op h, ?_⟩
  intro hr hv
  have hinv := reachable_stateInv hr
  have hnone : dbLookup s.pokemon_db s.next_id = none :=
    dbLookup_eq_none_of_lt hinv.1
  rw [create_pokemon_of_valid s now hv]
  show (dbInsert s.pokemon_db s.next_id _).length = _ ∧ _
  rw [dbInsert_of_none _ hnone]
  constructor
  · simp
  · intro k v hk
    exact dbLookup_append_of_some _ hk

/-- Witness for C9: a valid create from the reachable empty registry grows
the store from 0 to 1 records. -/
theorem C9_counter_dominates_store_witness :
    (create_pokemon initState ⟨"Pikachu", "Electric", 85⟩ "T").2.pokemon_db.length =
      initState.pokemon_db.length + 1 :=
  ((C9_counter_dominates_store initState ⟨"Pikachu", "Electric", 85⟩ "T").2.2
    ⟨[], rfl⟩ rfl).1

/-- C10: Delete never touches the counter, Get and List never touch the
state at all, and a successful Delete of id `k` removes exactly the entry
under `k`: lookups at every other id are unchanged. -/
theorem C10_delete_frame (s : RegistryState) (k : Int) :
    (delete_pokemon s k).2.next_id = s.next_id ∧
    (∀ j, (get_pokemon s j).2 = s) ∧
    (list_pokemon s).2 = s ∧
    (∀ r, dbLookup s.pokemon_db k = some r →
      dbLookup (delete_pokemon s k).2.pokemon_db k = none ∧
      ∀ j, j ≠ k → dbLookup (delete_pokemon s k).2.pokemon_db j =
        dbLookup s.pokemon_db j) := by
  refine ⟨?_, fun j => get_pokemon_state s j, rfl, ?_⟩
  · cases hd : dbLookup s.pokemon_db k with
    | none => rw [delete_pokemon_of_none hd]
    | some r => rw [delete_pokemon_of_some hd]
  · intro r hr
    rw [delete_pokemon_of_some hr]
    constructor
    · show dbLookup (dbDelete s.pokemon_db k) k = none
      rw [dbLookup_dbDelete]
      simp
    · intro j hj
      show dbLookup (dbDelete s.pokemon_db k) j = _
      rw [dbLookup_dbDelete]
      rw [if_neg hj]

/-- Witness for C10: deleting id 1 from a two-record registry leaves the
lookup at id 2 (and the counter) unchanged. -/
theorem C10_delete_frame_witness :
    dbLookup (delete_pokemon twoRecordState 1).2.pokemon_db 2 =
      dbLookup twoRecordState.pokemon_db 2 ∧
    (delete_pokemon twoRecordState 1).2.next_id = twoRecordState.next_id :=
  ⟨((C10_delete_frame twoRecordState 1).2.2.2 pikachuRecord rfl).2 2 (by decide),
    (C10_delete_frame twoRecordState 1).1⟩

end Pokedex
